import Mathlib

/-!
# Shallow embedding of the gcmalloc tracing collector (`src/gc.rs`)

This file embeds the collector core of the `gcmalloc` repository
(`src/gc.rs`: `Collector::collect`, `enter_mark_phase`, `enter_sweep_phase`,
`scan_stack`, `colour`, `mark`) and the pieces of the allocator that the
collector calls but whose source is not part of the given tree
(`AllocMetadata`, `Gc`, `GC_ALLOCATOR.dealloc`); the latter are modelled
from the specification and are marked as such in their doc comments.

Modelling conventions:
  * Addresses and machine words are `Nat` (`type Address = usize`,
    `type Word = usize` in the source).
  * `WORD_SIZE = 8` (`size_of::<usize>()`; the code is sysv64 / x86-64
    specific, see the `spill_registers` ABI in the source).
  * Heap memory is a total function `mem : Nat → Nat` giving the machine
    word read at an address (`*(addr as *const Word)`).  The mark bit and
    the dropped flag of a managed object live in its block header, which
    precedes the payload; the scan ranges `[ptr, ptr+size)` cover payloads
    only, so header bits are modelled as separate functions keyed by the
    payload address.
  * `Vec<PtrInfo>` used as a stack is a `List PtrInfo` whose head is the
    top of the stack (`push` conses, `pop` takes the head).
  * The mark-phase loop of the source is a plain `while`; it is embedded
    as a fuel-indexed recursion `markLoop`, `none` meaning the loop was
    still running when the fuel ran out.
  * `scan_stack` calls `get_stack_start().unwrap()`; the platform query is
    a parameter `stackTop? : Option Nat`, and the `unwrap` panic on `none`
    is modelled by `scan_stack` (and hence `collect`) returning `none`.
  * The `Mutex` around `CollectorState` serialises collectors; the
    embedding is single-threaded, so the lock itself is dropped and only
    the guarded state transitions are kept.
-/

namespace Gcmalloc

/-- `static WORD_SIZE: usize = std::mem::size_of::<usize>()` (bytes). -/
def WORD_SIZE : Nat := 8

/-- `PtrInfo` from `src/alloc.rs` (declaration site not in the tree; its
shape `{ ptr, size, gc }` is determined by the destructuring patterns in
`src/gc.rs` and by the spec §3: base address of the payload, payload size
in bytes, and the is-managed flag). -/
structure PtrInfo where
  ptr : Nat
  size : Nat
  gc : Bool
deriving DecidableEq, Repr

/-- `CollectorState` from `src/gc.rs`. -/
inductive CollectorState where
  | Ready
  | RootScanning
  | Marking
  | Sweeping
deriving DecidableEq, Repr

/-- `DebugFlags` from `src/gc.rs`. -/
structure DebugFlags where
  mark_phase : Bool
  sweep_phase : Bool
deriving DecidableEq, Repr

namespace DebugFlags

/-- `DebugFlags::new()`. -/
def new : DebugFlags := { mark_phase := true, sweep_phase := true }

end DebugFlags

/-- `Colour` from `src/gc.rs` (Dijkstra tri-colour abstraction). -/
inductive Colour where
  | Black
  | White
deriving DecidableEq, Repr

/-- An allocation layout (`std::alloc::Layout`): size and alignment. -/
structure Layout where
  size : Nat
  align : Nat
deriving DecidableEq, Repr

/-- The global heap and allocator state visible to the collector.

`index` is the Allocation Metadata Index (`AllocMetadata`); `mem` gives
the machine word stored at each address; `marks` and `dropped` are the
block-header bits of the object whose payload starts at the given
address; `baseOff` is `Gc::base_ptr_offset()` (distance from payload back
to the allocation base) and `layoutOf` the layout the block was allocated
under.  `drops` logs every invocation of a `drop_vptr` (by payload
address, in order) and `frees` logs every block returned to the system
allocator (base address and layout). -/
structure Heap where
  index : List PtrInfo
  mem : Nat → Nat
  marks : Nat → Bool
  dropped : Nat → Bool
  baseOff : Nat → Nat
  layoutOf : Nat → Layout
  drops : List Nat
  frees : List (Nat × Layout)

/-- The `Collector` struct from `src/gc.rs` (the `Mutex` around `state`
is elided, see the module comment). -/
structure Collector where
  worklist : List PtrInfo
  black : Bool
  debug_flags : DebugFlags
  state : CollectorState

namespace Collector

/-- `Collector::new(debug_flags)`. -/
def new (debug_flags : DebugFlags) : Collector :=
  { worklist := [], black := true, debug_flags, state := CollectorState.Ready }

/-- `Collector::current_black()`. -/
def current_black (c : Collector) : Bool := c.black

end Collector

/-- `AllocMetadata::find(word)` — modelled from the spec §4.1: returns
the record `R` of the index with `R.base ≤ word < R.base + R.size`, else
none (`src/alloc.rs` is not in the tree). -/
def AllocMetadata.find (index : List PtrInfo) (word : Nat) : Option PtrInfo :=
  index.find? (fun r => decide (r.ptr ≤ word) && decide (word < r.ptr + r.size))

/-- The word-aligned addresses visited by `(lo..hi).step_by(WORD_SIZE)`:
`lo, lo + 8, lo + 16, ...`, all strictly below `hi`. -/
def stepAddrs (lo hi : Nat) : List Nat :=
  (List.range ((hi - lo + (WORD_SIZE - 1)) / WORD_SIZE)).map (fun i => lo + i * WORD_SIZE)

/-- The records found when scanning every word-aligned address of
`[lo, hi)`: for each address the stored word is read and probed against
the Metadata Index; hits are collected in address order.  This is the
body of the scanning loops of `enter_mark_phase` and `scan_stack`. -/
def rangeHits (h : Heap) (lo hi : Nat) : List PtrInfo :=
  (stepAddrs lo hi).filterMap (fun addr => AllocMetadata.find h.index (h.mem addr))

/-- `Collector::colour(obj)` from `src/gc.rs`: Black iff the object's
mark bit equals the collector's current `black` polarity.  A `Gc<i8>`
handle is just the payload address (`Gc::from_raw(ptr)`). -/
def Collector.colour (c : Collector) (h : Heap) (obj : Nat) : Colour :=
  if h.marks obj = c.black then Colour.Black else Colour.White

/-- `obj.set_mark_bit(b)` — modelled from the spec §3 (the `Gc` handle
type is not in the tree): writes the mark bit in the block header of the
object whose payload starts at `obj`. -/
def setMarkBit (h : Heap) (obj : Nat) (b : Bool) : Heap :=
  { h with marks := fun a => if a = obj then b else h.marks a }

/-- `Collector::mark(obj, colour)` from `src/gc.rs`. -/
def Collector.mark (c : Collector) (h : Heap) (obj : Nat) (colour : Colour) : Heap :=
  match colour with
  | Colour.Black => setMarkBit h obj c.black
  | Colour.White => setMarkBit h obj (!c.black)

/-- The worklist loop of `Collector::enter_mark_phase` from `src/gc.rs`,
with explicit fuel (`none` = the loop was still running after `fuel`
iterations).  Each iteration pops a record; for a managed record the
object is skipped if already Black, otherwise marked Black; in the
remaining cases every word of `[ptr, ptr + size)` is scanned and each
index hit pushed. -/
def markLoop : Nat → Collector → Heap → Option (Collector × Heap)
  | 0, c, h => if c.worklist.isEmpty then some (c, h) else none
  | fuel + 1, c, h =>
    match c.worklist with
    | [] => some (c, h)
    | r :: rest =>
      if r.gc then
        if c.colour h r.ptr = Colour.Black then
          markLoop fuel { c with worklist := rest } h
        else
          let h2 := c.mark h r.ptr Colour.Black
          markLoop fuel
            { c with worklist := (rangeHits h2 r.ptr (r.ptr + r.size)).reverse ++ rest } h2
      else
        markLoop fuel
          { c with worklist := (rangeHits h r.ptr (r.ptr + r.size)).reverse ++ rest } h

/-- `Collector::enter_mark_phase` from `src/gc.rs`: set the state to
`Marking`, then drain the worklist. -/
def enter_mark_phase (fuel : Nat) (c : Collector) (h : Heap) : Option (Collector × Heap) :=
  markLoop fuel { c with state := CollectorState.Marking } h

/-- Modelled from the spec: destruction of one white managed block, i.e.
the effect of the `GC_ALLOCATOR.dealloc(baseptr, ...)` call in
`enter_sweep_phase` (the managed allocator, `src/alloc.rs`, is not in
the tree).  Per spec §4.4 the sweep path sets `dropped = true` before
invoking the payload's `drop_vptr` against the payload address, so the
destructor runs only if the flag was clear; per spec §4.2 deallocation
removes the record from the Metadata Index and returns the header-base
pointer with the original layout to the system allocator. -/
def destroyObj (h : Heap) (r : PtrInfo) : Heap :=
  let doDrop := !h.dropped r.ptr
  { h with
    dropped := fun a => if a = r.ptr then true else h.dropped a
    drops := if doDrop then h.drops ++ [r.ptr] else h.drops
    index := h.index.filter (fun q => q.ptr ≠ r.ptr)
    frees := h.frees ++ [(r.ptr - h.baseOff r.ptr, h.layoutOf r.ptr)] }

/-- `Collector::enter_sweep_phase` from `src/gc.rs`: set the state to
`Sweeping`; for every managed record of the Metadata Index whose object
is White, destroy it (`GC_ALLOCATOR.dealloc` of the header-base
pointer); finally flip the meaning of the mark bit
(`self.black = !self.black`).  `iter()` sees the set of records as it
was when the sweep began (spec §4.1: the set is stable during
collection). -/
def enter_sweep_phase (c : Collector) (h : Heap) : Collector × Heap :=
  let c1 := { c with state := CollectorState.Sweeping }
  let h1 := (h.index.filter (fun r => r.gc)).foldl
    (fun hh r => if c1.colour hh r.ptr = Colour.White then destroyObj hh r else hh) h
  ({ c1 with black := !c1.black }, h1)

/-- `Collector::scan_stack(rsp)` from `src/gc.rs`.  `stackTop?` is the
result of the platform query `get_stack_start()`; the source calls
`.unwrap()` on it, so `none` makes the callback panic, modelled as the
overall result `none`.  Otherwise every word-aligned address of
`[rsp, stack_top)` is read and every Metadata Index hit pushed onto the
worklist. -/
def scan_stack (stackTop? : Option Nat) (rsp : Nat) (c : Collector) (h : Heap) :
    Option Collector :=
  match stackTop? with
  | none => none
  | some stackTop =>
    some { c with worklist := (rangeHits h rsp stackTop).reverse ++ c.worklist }

/-- `Collector::collect` from `src/gc.rs`.  Under the state mutex: if the
state is not `Ready` return at once (another collector is active),
otherwise move to `RootScanning`.  Then spill registers and scan the
stack (`spill_registers` invokes `scan_stack` with the post-spill stack
pointer `rsp`), run the mark phase if `debug_flags.mark_phase`, run the
sweep phase if `debug_flags.sweep_phase`, and reset the state to
`Ready`.  The result is `none` when the run aborted (stack-base `unwrap`
panic, or mark-loop fuel exhausted), `some` when `collect` returned. -/
def collect (fuel : Nat) (stackTop? : Option Nat) (rsp : Nat) (c : Collector) (h : Heap) :
    Option (Collector × Heap) :=
  match c.state with
  | CollectorState.Ready =>
    let c0 := { c with state := CollectorState.RootScanning }
    match scan_stack stackTop? rsp c0 h with
    | none => none
    | some c1 =>
      match (if c1.debug_flags.mark_phase then enter_mark_phase fuel c1 h else some (c1, h)) with
      | none => none
      | some (c2, h2) =>
        let (c3, h3) :=
          if c2.debug_flags.sweep_phase then enter_sweep_phase c2 h2 else (c2, h2)
        some ({ c3 with state := CollectorState.Ready }, h3)
  | _ => some (c, h)

/-! ## Auxiliary definitions used by the verification -/

/-- Every record of an index is managed. -/
abbrev allManaged (index : List PtrInfo) : Prop := ∀ r ∈ index, r.gc = true

/-- The number of White managed-index entries (records of the index whose
object's mark bit differs from the polarity `black`); the strictly
decreasing component of the mark-loop termination measure. -/
def whites (black : Bool) (h : Heap) : Nat :=
  (h.index.filter fun r => !(h.marks r.ptr == black)).length

/-- Worklist entries that are not managed members of the index; they are
popped but never pushed back (all pushes are index hits), the second
component of the mark-loop termination measure. -/
def badCount (index worklist : List PtrInfo) : Nat :=
  (worklist.filter fun r => !(r.gc && decide (r ∈ index))).length

/-- The records `enter_sweep_phase` destroys: the managed entries of the
Metadata Index whose mark bit differs from the polarity `c.black` (i.e.
whose colour is White when the sweep runs). -/
def sweepVictims (c : Collector) (h : Heap) : List PtrInfo :=
  (h.index.filter fun r => r.gc).filter fun r => !(h.marks r.ptr == c.black)

/-! ## Concrete states used by witnesses and counterexamples -/

/-- A heap with two managed allocations: the one at 100 is White under
`black = true` (mark bit clear) and the one at 200 is Black (mark bit
set); destructors have not run. -/
def sweepHeap : Heap :=
  { index := [⟨100, 8, true⟩, ⟨200, 8, true⟩]
    mem := fun _ => 0
    marks := fun a => a == 200
    dropped := fun _ => false
    baseOff := fun _ => 8
    layoutOf := fun _ => ⟨16, 8⟩
    drops := []
    frees := [] }

/-- A heap with a single managed 8-byte allocation at address 100 whose
payload words are all zero (so no scan ever finds a hit), mark bit
clear. -/
def exHeap : Heap :=
  { index := [⟨100, 8, true⟩]
    mem := fun _ => 0
    marks := fun _ => false
    dropped := fun _ => false
    baseOff := fun _ => 8
    layoutOf := fun _ => ⟨16, 8⟩
    drops := []
    frees := [] }

/-- A ready collector with full debug flags and an empty worklist. -/
def exCollector : Collector :=
  { worklist := [], black := true, debug_flags := DebugFlags.new
    state := CollectorState.Ready }

/-- A collector caught mid-collection (state `Marking`). -/
def busyCollector : Collector :=
  { worklist := [], black := true, debug_flags := DebugFlags.new
    state := CollectorState.Marking }

/-- A marking collector whose worklist holds one non-managed record. -/
def cNonGc : Collector :=
  { worklist := [⟨100, 8, false⟩], black := true, debug_flags := DebugFlags.new
    state := CollectorState.Marking }

/-- A heap whose only registered block is non-managed, lives at
`[100, 108)`, and stores the word 100 in its single payload word: the
block points into its own range, so scanning it re-discovers it. -/
def selfRefHeap : Heap :=
  { index := [⟨100, 8, false⟩]
    mem := fun _ => 100
    marks := fun _ => false
    dropped := fun _ => false
    baseOff := fun _ => 8
    layoutOf := fun _ => ⟨16, 8⟩
    drops := []
    frees := [] }

/-- A marking collector whose worklist holds one managed record. -/
def cSelfGc : Collector :=
  { worklist := [⟨100, 8, true⟩], black := true, debug_flags := DebugFlags.new
    state := CollectorState.Marking }

/-- Like `selfRefHeap`, but the self-referential block is managed. -/
def selfRefGcHeap : Heap :=
  { index := [⟨100, 8, true⟩]
    mem := fun _ => 100
    marks := fun _ => false
    dropped := fun _ => false
    baseOff := fun _ => 8
    layoutOf := fun _ => ⟨16, 8⟩
    drops := []
    frees := [] }

/-- A ready collector with both debug phases disabled (the configuration
of the second `collect()` of `gc_tests/tests/multiple_collections.rs`). -/
def cFlagsOff : Collector :=
  { worklist := [], black := true
    debug_flags := { mark_phase := false, sweep_phase := false }
    state := CollectorState.Ready }

/-- A heap with one managed allocation at 100 whose mark bit equals the
current `black = true` polarity, i.e. the object is currently Black (the
state of `y` before the flags-off `collect()` of the
`multiple_collections` test); no stored word hits the index. -/
def blackObjHeap : Heap :=
  { index := [⟨100, 8, true⟩]
    mem := fun _ => 0
    marks := fun a => a == 100
    dropped := fun _ => false
    baseOff := fun _ => 8
    layoutOf := fun _ => ⟨16, 8⟩
    drops := []
    frees := [] }

/-- A ready collector with the mark phase disabled and a non-empty
worklist (to exhibit that old entries are retained). -/
def cMarkOff : Collector :=
  { worklist := [⟨100, 8, true⟩], black := true
    debug_flags := { mark_phase := false, sweep_phase := true }
    state := CollectorState.Ready }

/-! ## Basic lemmas about the embedding -/

/-- Writing a mark bit changes neither the Metadata Index nor the stored
words, so the scanning loops see the same hits. -/
theorem rangeHits_setMarkBit (h : Heap) (obj : Nat) (b : Bool) (lo hi : Nat) :
    rangeHits (setMarkBit h obj b) lo hi = rangeHits h lo hi := rfl

/-- Same, stated for `Collector.mark`. -/
theorem rangeHits_mark (c : Collector) (h : Heap) (obj : Nat) (col : Colour) (lo hi : Nat) :
    rangeHits (c.mark h obj col) lo hi = rangeHits h lo hi := by
  cases col <;> rfl

/-- `i < (n + 7) / 8` says exactly that `8 * i < n`. -/
theorem lt_stepCount_iff (i n : Nat) : i < (n + (WORD_SIZE - 1)) / WORD_SIZE ↔ WORD_SIZE * i < n := by
  unfold WORD_SIZE
  omega

/-- The addresses visited by `(lo..hi).step_by(WORD_SIZE)` are exactly the
word-aligned addresses of the half-open interval `[lo, hi)` (aligned
relative to `lo`, the start of the walk). -/
theorem mem_stepAddrs (lo hi a : Nat) :
    a ∈ stepAddrs lo hi ↔ lo ≤ a ∧ a < hi ∧ (a - lo) % WORD_SIZE = 0 := by
  unfold stepAddrs
  simp only [List.mem_map, List.mem_range]
  constructor
  · rintro ⟨i, hi', rfl⟩
    rw [lt_stepCount_iff] at hi'
    unfold WORD_SIZE at hi' ⊢
    omega
  · rintro ⟨h1, h2, h3⟩
    refine ⟨(a - lo) / WORD_SIZE, ?_, ?_⟩
    · rw [lt_stepCount_iff]
      unfold WORD_SIZE at h3 ⊢
      omega
    · unfold WORD_SIZE at h3 ⊢
      omega

/-- A record produced by a range scan is exactly an index hit of the
stored word at some visited address. -/
theorem mem_rangeHits (h : Heap) (lo hi : Nat) (q : PtrInfo) :
    q ∈ rangeHits h lo hi ↔
      ∃ addr ∈ stepAddrs lo hi, AllocMetadata.find h.index (h.mem addr) = some q := by
  unfold rangeHits
  simp [List.mem_filterMap]

/-- An index hit is a member of the index. -/
theorem find_mem (index : List PtrInfo) (word : Nat) (q : PtrInfo)
    (hq : AllocMetadata.find index word = some q) : q ∈ index :=
  List.mem_of_find?_eq_some hq

/-- Once the worklist is empty, the mark loop stops successfully with any
amount of fuel. -/
theorem markLoop_nil (fuel : Nat) (c : Collector) (h : Heap) (hw : c.worklist = []) :
    markLoop fuel c h = some (c, h) := by
  cases fuel with
  | zero => simp [markLoop, hw, List.isEmpty_iff]
  | succ n => simp only [markLoop, hw]

/-- When the mark loop finishes, the worklist has been drained. -/
theorem markLoop_drains (fuel : Nat) :
    ∀ (c : Collector) (h : Heap),
      ((markLoop fuel c h).all fun p => p.1.worklist.isEmpty) = true := by
  induction fuel with
  | zero =>
    intro c h
    by_cases hw : c.worklist.isEmpty <;> simp [markLoop, hw]
  | succ n ih =>
    intro c h
    rcases hw : c.worklist with _ | ⟨r, rest⟩
    · simp [markLoop, hw]
    · simp only [markLoop, hw]
      by_cases hg : r.gc <;> simp only [hg, if_true, if_false, Bool.false_eq_true]
      · by_cases hb : c.colour h r.ptr = Colour.Black <;> simp only [hb, if_true, if_false]
        · exact ih _ _
        · exact ih _ _
      · exact ih _ _

/-- One mark-loop step: a managed record whose object is already Black
is skipped (`continue`). -/
theorem markLoop_step_skip (fuel : Nat) (c : Collector) (h : Heap) (r : PtrInfo)
    (rest : List PtrInfo) (hw : c.worklist = r :: rest) (hg : r.gc = true)
    (hb : c.colour h r.ptr = Colour.Black) :
    markLoop (fuel + 1) c h = markLoop fuel { c with worklist := rest } h := by
  simp [markLoop, hw, hg, hb]

/-- One mark-loop step: a managed record whose object is not Black is
marked Black and its range scanned. -/
theorem markLoop_step_markBlack (fuel : Nat) (c : Collector) (h : Heap) (r : PtrInfo)
    (rest : List PtrInfo) (hw : c.worklist = r :: rest) (hg : r.gc = true)
    (hb : c.colour h r.ptr ≠ Colour.Black) :
    markLoop (fuel + 1) c h =
      markLoop fuel
        { c with worklist := (rangeHits h r.ptr (r.ptr + r.size)).reverse ++ rest }
        (c.mark h r.ptr Colour.Black) := by
  simp [markLoop, hw, hg, hb, rangeHits_mark]

/-- One mark-loop step: a non-managed record is scanned with the heap
untouched. -/
theorem markLoop_step_noGc (fuel : Nat) (c : Collector) (h : Heap) (r : PtrInfo)
    (rest : List PtrInfo) (hw : c.worklist = r :: rest) (hg : r.gc = false) :
    markLoop (fuel + 1) c h =
      markLoop fuel
        { c with worklist := (rangeHits h r.ptr (r.ptr + r.size)).reverse ++ rest } h := by
  simp [markLoop, hw, hg]

/-- A pointwise-weaker predicate filters to a list at most as long. -/
theorem filter_length_mono {α : Type} (l : List α) (p q : α → Bool)
    (hpq : ∀ x ∈ l, q x = true → p x = true) :
    (l.filter q).length ≤ (l.filter p).length := by
  induction l with
  | nil => simp
  | cons a t ih =>
    have ht : ∀ x ∈ t, q x = true → p x = true :=
      fun x hx => hpq x (List.mem_cons_of_mem a hx)
    cases hq : q a with
    | true =>
      have hp : p a = true := hpq a (List.mem_cons_self a t) hq
      simp only [List.filter_cons, hq, hp, if_true, List.length_cons]
      exact Nat.succ_le_succ (ih ht)
    | false =>
      cases hp : p a with
      | true =>
        simp only [List.filter_cons, hq, hp, if_true, Bool.false_eq_true, if_false,
          List.length_cons]
        exact Nat.le_succ_of_le (ih ht)
      | false =>
        simp only [List.filter_cons, hq, hp, Bool.false_eq_true, if_false]
        exact ih ht

/-- Strict version of `filter_length_mono`: some member satisfies the
stronger predicate but not the weaker one. -/
theorem filter_length_lt {α : Type} (l : List α) (p q : α → Bool)
    (hpq : ∀ x ∈ l, q x = true → p x = true)
    (x : α) (hx : x ∈ l) (hpx : p x = true) (hqx : q x = false) :
    (l.filter q).length < (l.filter p).length := by
  induction l with
  | nil => simp at hx
  | cons a t ih =>
    have ht : ∀ y ∈ t, q y = true → p y = true :=
      fun y hy => hpq y (List.mem_cons_of_mem a hy)
    rcases List.mem_cons.mp hx with rfl | hxt
    · simp only [List.filter_cons, hqx, hpx, if_true, Bool.false_eq_true, if_false,
        List.length_cons]
      exact Nat.lt_succ_of_le (filter_length_mono t p q ht)
    · cases hq : q a with
      | true =>
        have hp : p a = true := hpq a (List.mem_cons_self a t) hq
        simp only [List.filter_cons, hq, hp, if_true, List.length_cons]
        exact Nat.succ_lt_succ (ih ht hxt)
      | false =>
        cases hp : p a with
        | true =>
          simp only [List.filter_cons, hq, hp, if_true, Bool.false_eq_true, if_false,
            List.length_cons]
          exact Nat.lt_succ_of_lt (ih ht hxt)
        | false =>
          simp only [List.filter_cons, hq, hp, Bool.false_eq_true, if_false]
          exact ih ht hxt

/-- `colour obj ≠ Black` says exactly that the mark bit differs from
`black`. -/
theorem colour_ne_black_iff (c : Collector) (h : Heap) (p : Nat) :
    c.colour h p ≠ Colour.Black ↔ h.marks p ≠ c.black := by
  by_cases hm : h.marks p = c.black <;> simp [Collector.colour, hm]

/-- Blackening any mark bit never increases the number of White index
entries. -/
theorem whites_setMarkBit_le (black : Bool) (h : Heap) (p : Nat) :
    whites black (setMarkBit h p black) ≤ whites black h := by
  apply filter_length_mono
  intro r _ hq
  by_cases hp : r.ptr = p
  · simp [setMarkBit, hp] at hq
  · simpa [setMarkBit, hp] using hq

/-- Blackening the mark bit of a White index member strictly decreases
the number of White index entries. -/
theorem whites_setMarkBit_lt (black : Bool) (h : Heap) (r : PtrInfo)
    (hr : r ∈ h.index) (hw : h.marks r.ptr ≠ black) :
    whites black (setMarkBit h r.ptr black) < whites black h := by
  refine filter_length_lt _ _ _ ?_ r hr ?_ ?_
  · intro x _ hq
    by_cases hp : x.ptr = r.ptr
    · simp [setMarkBit, hp] at hq
    · simpa [setMarkBit, hp] using hq
  · simp [hw]
  · simp [setMarkBit]

/-- Every record produced by a range scan of a fully managed index is a
managed member of the index. -/
theorem rangeHits_good (h : Heap) (lo hi : Nat) (hall : allManaged h.index)
    (q : PtrInfo) (hq : q ∈ rangeHits h lo hi) : q.gc = true ∧ q ∈ h.index := by
  rw [mem_rangeHits] at hq
  obtain ⟨addr, _, hfind⟩ := hq
  have hm := find_mem h.index (h.mem addr) q hfind
  exact ⟨hall q hm, hm⟩

/-- Dropping the head of the worklist cannot increase `badCount`. -/
theorem badCount_cons_le (index : List PtrInfo) (r : PtrInfo) (rest : List PtrInfo) :
    badCount index rest ≤ badCount index (r :: rest) := by
  unfold badCount
  rw [List.filter_cons]
  split
  · exact Nat.le_succ _
  · exact Nat.le_refl _

/-- Prepending only managed index members leaves `badCount` unchanged. -/
theorem badCount_append_good (index wl₁ wl₂ : List PtrInfo)
    (hgood : ∀ q ∈ wl₁, q.gc = true ∧ q ∈ index) :
    badCount index (wl₁ ++ wl₂) = badCount index wl₂ := by
  unfold badCount
  rw [List.filter_append]
  have hnil : wl₁.filter (fun r => !(r.gc && decide (r ∈ index))) = [] := by
    rw [List.filter_eq_nil_iff]
    intro q hq
    obtain ⟨hg, hm⟩ := hgood q hq
    simp [hg, hm]
  rw [hnil, List.nil_append]

/-- Popping a worklist entry that is not a managed index member
decreases `badCount` by one. -/
theorem badCount_cons_bad (index : List PtrInfo) (r : PtrInfo) (rest : List PtrInfo)
    (hbad : (r.gc && decide (r ∈ index)) = false) :
    badCount index (r :: rest) = badCount index rest + 1 := by
  unfold badCount
  rw [List.filter_cons]
  simp [hbad]

/-- Termination of the mark loop by lexicographic induction on
(White index entries, worklist entries that are not managed index
members, worklist length), for a fully managed index. -/
theorem markLoop_term_aux :
    ∀ (W B L : Nat) (c : Collector) (h : Heap),
      allManaged h.index →
      whites c.black h < W → badCount h.index c.worklist < B →
      c.worklist.length < L →
      ∃ fuel, (markLoop fuel c h).isSome = true := by
  intro W
  induction W with
  | zero => intro B L c h _ hW _ _; exact absurd hW (Nat.not_lt_zero _)
  | succ W ihW =>
    intro B
    induction B with
    | zero => intro L c h _ _ hB _; exact absurd hB (Nat.not_lt_zero _)
    | succ B ihB =>
      intro L
      induction L with
      | zero => intro c h _ _ _ hL; exact absurd hL (Nat.not_lt_zero _)
      | succ L ihL =>
        intro c h hall hW hB hL
        rcases hw : c.worklist with _ | ⟨r, rest⟩
        · exact ⟨0, by rw [markLoop_nil 0 c h hw]; rfl⟩
        rw [hw] at hB hL
        simp only [List.length_cons, Nat.succ_lt_succ_iff] at hL
        by_cases hg : r.gc = true
        · by_cases hb : c.colour h r.ptr = Colour.Black
          · -- skip: worklist shrinks, nothing else changes
            obtain ⟨fuel, hf⟩ := ihL { c with worklist := rest } h hall hW
              (Nat.lt_of_le_of_lt (badCount_cons_le h.index r rest) hB) hL
            exact ⟨fuel + 1, by rw [markLoop_step_skip fuel c h r rest hw hg hb]; exact hf⟩
          · by_cases hmem : r ∈ h.index
            · -- a White managed index member is blackened: whites drops
              have hwm : h.marks r.ptr ≠ c.black := (colour_ne_black_iff c h r.ptr).mp hb
              have hlt : whites c.black (setMarkBit h r.ptr c.black) < whites c.black h :=
                whites_setMarkBit_lt c.black h r hmem hwm
              obtain ⟨fuel, hf⟩ := ihW
                (badCount h.index
                  ((rangeHits h r.ptr (r.ptr + r.size)).reverse ++ rest) + 1)
                (((rangeHits h r.ptr (r.ptr + r.size)).reverse ++ rest).length + 1)
                { c with worklist := (rangeHits h r.ptr (r.ptr + r.size)).reverse ++ rest }
                (c.mark h r.ptr Colour.Black)
                hall
                (Nat.lt_of_lt_of_le hlt (Nat.lt_succ_iff.mp hW))
                (Nat.lt_succ_self _) (Nat.lt_succ_self _)
              exact ⟨fuel + 1, by
                rw [markLoop_step_markBlack fuel c h r rest hw hg hb]; exact hf⟩
            · -- managed but not registered: a bad entry is consumed
              have hbad : (r.gc && decide (r ∈ h.index)) = false := by simp [hmem]
              have hgood : ∀ q ∈ (rangeHits h r.ptr (r.ptr + r.size)).reverse,
                  q.gc = true ∧ q ∈ h.index := by
                intro q hq
                exact rangeHits_good h r.ptr (r.ptr + r.size) hall q
                  (List.mem_reverse.mp hq)
              have hbc : badCount h.index
                  ((rangeHits h r.ptr (r.ptr + r.size)).reverse ++ rest) < B := by
                rw [badCount_append_good h.index _ rest hgood]
                have := badCount_cons_bad h.index r rest hbad
                omega
              obtain ⟨fuel, hf⟩ := ihB
                (((rangeHits h r.ptr (r.ptr + r.size)).reverse ++ rest).length + 1)
                { c with worklist := (rangeHits h r.ptr (r.ptr + r.size)).reverse ++ rest }
                (c.mark h r.ptr Colour.Black)
                hall
                (Nat.lt_of_le_of_lt (whites_setMarkBit_le c.black h r.ptr) hW)
                hbc (Nat.lt_succ_self _)
              exact ⟨fuel + 1, by
                rw [markLoop_step_markBlack fuel c h r rest hw hg hb]; exact hf⟩
        · -- non-managed: a bad entry is consumed, heap unchanged
          have hg' : r.gc = false := by
            cases hrg : r.gc
            · rfl
            · exact absurd hrg hg
          have hbad : (r.gc && decide (r ∈ h.index)) = false := by simp [hg']
          have hgood : ∀ q ∈ (rangeHits h r.ptr (r.ptr + r.size)).reverse,
              q.gc = true ∧ q ∈ h.index := by
            intro q hq
            exact rangeHits_good h r.ptr (r.ptr + r.size) hall q (List.mem_reverse.mp hq)
          have hbc : badCount h.index
              ((rangeHits h r.ptr (r.ptr + r.size)).reverse ++ rest) < B := by
            rw [badCount_append_good h.index _ rest hgood]
            have := badCount_cons_bad h.index r rest hbad
            omega
          obtain ⟨fuel, hf⟩ := ihB
            (((rangeHits h r.ptr (r.ptr + r.size)).reverse ++ rest).length + 1)
            { c with worklist := (rangeHits h r.ptr (r.ptr + r.size)).reverse ++ rest } h
            hall hW hbc (Nat.lt_succ_self _)
          exact ⟨fuel + 1, by rw [markLoop_step_noGc fuel c h r rest hw hg']; exact hf⟩

/-! ## Claim theorems -/

/-- C9: for either polarity of `black`, `mark obj Black` makes
`colour obj = Black` and `mark obj White` makes `colour obj = White`
(Black means the mark bit equals `black`), and toggling `black` swaps
the colour of every object whose mark bit is not modified. -/
theorem C9_mark_colour_algebra (c : Collector) (h : Heap) (obj p : Nat) :
    c.colour (c.mark h obj Colour.Black) obj = Colour.Black ∧
    c.colour (c.mark h obj Colour.White) obj = Colour.White ∧
    ({ c with black := !c.black } : Collector).colour h p =
      (if c.colour h p = Colour.Black then Colour.White else Colour.Black) := by
  refine ⟨?_, ?_, ?_⟩
  · simp [Collector.colour, Collector.mark, setMarkBit]
  · cases hb : c.black <;> simp [Collector.colour, Collector.mark, setMarkBit, hb]
  · cases hm : h.marks p <;> cases hb : c.black <;>
      simp [Collector.colour, hm, hb]

/-- C5: `collect` first attempts the `Ready → RootScanning` transition;
a caller observing any non-`Ready` state returns immediately with the
collector and heap completely unchanged (no phase, no state change, no
error). -/
theorem C5_reentry_guard (fuel : Nat) (stackTop? : Option Nat) (rsp : Nat)
    (c : Collector) (h : Heap) (hne : c.state ≠ CollectorState.Ready) :
    collect fuel stackTop? rsp c h = some (c, h) := by
  unfold collect
  cases hs : c.state <;> first
    | exact absurd hs hne
    | rfl

/-- C5 witness: a collector observed in state `Marking` is returned
unchanged. -/
theorem C5_reentry_guard_witness :
    busyCollector.state ≠ CollectorState.Ready ∧
    collect 3 (some 200) 0 busyCollector exHeap = some (busyCollector, exHeap) :=
  ⟨by decide, C5_reentry_guard 3 (some 200) 0 busyCollector exHeap (by decide)⟩

/-- C8: whenever `collect` observes `Ready` and returns, the state field
has been reset to `Ready` (for every combination of debug flags, which
are universally quantified inside `c`); and a call observing a
non-`Ready` state leaves the state unchanged. -/
theorem C8_collect_restores_ready (fuel : Nat) (stackTop? : Option Nat) (rsp : Nat)
    (c : Collector) (h : Heap) :
    (c.state = CollectorState.Ready →
      ((collect fuel stackTop? rsp c h).all
        fun p => p.1.state == CollectorState.Ready) = true) ∧
    (c.state ≠ CollectorState.Ready → collect fuel stackTop? rsp c h = some (c, h)) := by
  constructor
  · intro hs
    unfold collect
    rw [hs]
    cases stackTop? with
    | none => rfl
    | some base =>
      simp only [scan_stack]
      split <;> rfl
  · intro hne
    unfold collect
    cases hs : c.state <;> first
      | exact absurd hs hne
      | rfl

/-- C8 witness: a full default collection from `Ready` ends in `Ready`. -/
theorem C8_collect_restores_ready_witness :
    exCollector.state = CollectorState.Ready ∧
    (collect 1 (some 200) 0 exCollector exHeap).isSome = true ∧
    ((collect 1 (some 200) 0 exCollector exHeap).all
      fun p => p.1.state == CollectorState.Ready) = true :=
  ⟨rfl, by decide,
    (C8_collect_restores_ready 1 (some 200) 0 exCollector exHeap).1 rfl⟩

/-- C6: with a stack base `base` obtained from the platform thread API,
the stack-scanning callback walks exactly the word-aligned addresses of
`[rsp, base)`, and appends to the worklist exactly the records the
Metadata Index reports for the stored words; words with no hit add
nothing (the appended entries are precisely the `filterMap` of the index
lookup over those addresses). -/
theorem C6_scan_stack_roots (base rsp : Nat) (c : Collector) (h : Heap) :
    scan_stack (some base) rsp c h =
      some { c with worklist := (rangeHits h rsp base).reverse ++ c.worklist } ∧
    (∀ q : PtrInfo, q ∈ rangeHits h rsp base ↔
      ∃ addr ∈ stepAddrs rsp base, AllocMetadata.find h.index (h.mem addr) = some q) ∧
    (∀ a : Nat, a ∈ stepAddrs rsp base ↔ rsp ≤ a ∧ a < base ∧ (a - rsp) % WORD_SIZE = 0) :=
  ⟨rfl, fun q => mem_rangeHits h rsp base q, fun a => mem_stepAddrs rsp base a⟩

/-- C2: one iteration of the mark-phase loop.  A managed record whose
object is already Black is skipped outright (no mark change, no scan); a
managed record whose object is not Black has its mark bit set to the
current `black` and its range scanned with all index hits pushed; a
non-managed record is scanned the same way with the heap — in particular
every mark bit — left untouched; and the pushed records are exactly the
index hits of the words stored at the word-aligned addresses of
`[ptr, ptr + size)`. -/
theorem C2_mark_step (fuel : Nat) (c : Collector) (h : Heap) (r : PtrInfo)
    (rest : List PtrInfo) (hw : c.worklist = r :: rest) :
    (r.gc = true → c.colour h r.ptr = Colour.Black →
      markLoop (fuel + 1) c h = markLoop fuel { c with worklist := rest } h) ∧
    (r.gc = true → c.colour h r.ptr ≠ Colour.Black →
      markLoop (fuel + 1) c h =
        markLoop fuel
          { c with worklist := (rangeHits h r.ptr (r.ptr + r.size)).reverse ++ rest }
          (c.mark h r.ptr Colour.Black) ∧
      (c.mark h r.ptr Colour.Black).marks r.ptr = c.black) ∧
    (r.gc = false →
      markLoop (fuel + 1) c h =
        markLoop fuel
          { c with worklist := (rangeHits h r.ptr (r.ptr + r.size)).reverse ++ rest } h) ∧
    (∀ q : PtrInfo, q ∈ rangeHits h r.ptr (r.ptr + r.size) ↔
      ∃ addr ∈ stepAddrs r.ptr (r.ptr + r.size),
        AllocMetadata.find h.index (h.mem addr) = some q) := by
  refine ⟨?_, ?_, ?_, fun q => mem_rangeHits h r.ptr (r.ptr + r.size) q⟩
  · intro hg hb
    simp [markLoop, hw, hg, hb]
  · intro hg hb
    constructor
    · simp [markLoop, hw, hg, hb, rangeHits_mark]
    · simp [Collector.mark, setMarkBit]
  · intro hg
    simp [markLoop, hw, hg]

/-- C2 witness: popping a non-managed record scans it and leaves the
heap unchanged. -/
theorem C2_mark_step_witness :
    cNonGc.worklist = ⟨100, 8, false⟩ :: [] ∧
    (⟨100, 8, false⟩ : PtrInfo).gc = false ∧
    markLoop 1 cNonGc selfRefHeap =
      markLoop 0
        { cNonGc with worklist := (rangeHits selfRefHeap 100 (100 + 8)).reverse ++ [] }
        selfRefHeap :=
  ⟨rfl, rfl,
    (C2_mark_step 0 cNonGc selfRefHeap ⟨100, 8, false⟩ [] rfl).2.2.1 rfl⟩

/-- C10: when `collect` runs from `Ready` with the mark phase disabled,
the roots pushed by stack scanning are still in the worklist when
`collect` returns, on top of the old worklist, which is not consumed;
the sweep phase never touches the worklist; and the mark loop is the
(only) drainer: whenever it completes, the worklist is empty. -/
theorem C10_worklist_left_when_mark_disabled (fuel base rsp : Nat)
    (c : Collector) (h : Heap) (hready : c.state = CollectorState.Ready)
    (hmark : c.debug_flags.mark_phase = false) :
    ((collect fuel (some base) rsp c h).all
      fun p => p.1.worklist == (rangeHits h rsp base).reverse ++ c.worklist) = true ∧
    (∀ (c2 : Collector) (h2 : Heap),
      (enter_sweep_phase c2 h2).1.worklist = c2.worklist) ∧
    (∀ (f : Nat) (c2 : Collector) (h2 : Heap),
      ((markLoop f c2 h2).all fun p => p.1.worklist.isEmpty) = true) := by
  refine ⟨?_, fun c2 h2 => rfl, fun f c2 h2 => markLoop_drains f c2 h2⟩
  unfold collect
  rw [hready]
  simp only [scan_stack, hmark, Bool.false_eq_true, if_false]
  split <;> simp [enter_sweep_phase]

/-- C10 witness: a mark-disabled collection returns with the scanned
root on top of the untouched old worklist. -/
theorem C10_worklist_left_when_mark_disabled_witness :
    cMarkOff.state = CollectorState.Ready ∧
    cMarkOff.debug_flags.mark_phase = false ∧
    ((collect 0 (some 208) 200 cMarkOff selfRefGcHeap).all
      fun p => p.1.worklist ==
        (rangeHits selfRefGcHeap 200 208).reverse ++ cMarkOff.worklist) = true :=
  ⟨rfl, rfl,
    (C10_worklist_left_when_mark_disabled 0 208 200 cMarkOff selfRefGcHeap rfl rfl).1⟩

/-- C7 counterexample: the claim says that when the platform stack-base
query fails the collection performs no stack scan and `collect` returns
normally; but `scan_stack` calls `.unwrap()` on the query's result, so
on `none` it panics (modelled by `none`): at this concrete `Ready`
state, `collect` does not return at all. -/
theorem C7_counterexample :
    collect 3 none 0 exCollector exHeap = none ∧ exCollector.state = CollectorState.Ready :=
  ⟨rfl, rfl⟩

/-- C7 amended: if the platform query for the stack base fails, the
stack-scanning callback panics on its `unwrap` and the collection aborts
(for every fuel, i.e. independently of the mark loop), rather than
returning normally; no phase completes and `collect` never returns. -/
theorem C7_stack_base_failure_panics (fuel rsp : Nat) (c : Collector) (h : Heap)
    (hready : c.state = CollectorState.Ready) :
    collect fuel none rsp c h = none := by
  unfold collect
  rw [hready]
  rfl

/-- C7 amended witness. -/
theorem C7_stack_base_failure_panics_witness :
    exCollector.state = CollectorState.Ready ∧
    collect 5 none 3 exCollector exHeap = none :=
  ⟨rfl, C7_stack_base_failure_panics 5 3 exCollector exHeap rfl⟩

/-- C4 (code evaluation at the failing input): running `collect` from
`Ready` with both debug phases disabled on a heap whose single managed
object is currently Black leaves `black` untouched and the object still
Black — the polarity flip sits inside `enter_sweep_phase`
(`self.black = !self.black` after the sweep loop) and is skipped
together with the sweep, contradicting the claim (and the repository's
own test `gc_tests/tests/multiple_collections.rs`, whose second assert
expects the object to no longer be black). -/
theorem C4_no_flip_when_sweep_disabled :
    cFlagsOff.black = true ∧
    cFlagsOff.colour blackObjHeap 100 = Colour.Black ∧
    ((collect 0 (some 200) 0 cFlagsOff blackObjHeap).map
      fun p => (p.1.black, p.1.colour p.2 100)) = some (true, Colour.Black) := by
  refine ⟨rfl, by decide, by decide⟩

/-- C3 counterexample: the claim asserts termination of the mark-phase
loop for every initial worklist and finite Metadata Index, *including*
indexes containing non-managed records whose payload words point into
registered ranges.  At the concrete state below — one non-managed record
`⟨100, 8, false⟩` whose single payload word stores 100, i.e. points into
its own range — the loop pops the record, never marks it (it is not
managed), re-discovers it by scanning and pushes it again, forever: no
amount of fuel makes the loop finish. -/
theorem C3_counterexample :
    ¬ ∃ (fuel : Nat) (p : Collector × Heap),
        enter_mark_phase fuel cNonGc selfRefHeap = some p := by
  have key : ∀ n, markLoop n cNonGc selfRefHeap = none := by
    intro n
    induction n with
    | zero => rfl
    | succ k ih =>
      calc markLoop (k + 1) cNonGc selfRefHeap
          = markLoop k cNonGc selfRefHeap := rfl
        _ = none := ih
  rintro ⟨fuel, p, hp⟩
  have hp' : markLoop fuel cNonGc selfRefHeap = some p := hp
  rw [key fuel] at hp'
  exact Option.noConfusion hp'

/-- C3 amended: the mark-phase worklist loop terminates for every
initial worklist and every finite Metadata Index *all of whose records
are managed* (`gc = true`) — the set of managed objects is finite and
each is marked at most once, and every push is an index hit; the
unrestricted claim fails because non-managed records are traversed but
never coloured, so an index with a non-managed record whose words point
into registered ranges can be re-pushed forever. -/
theorem C3_mark_loop_terminates (c : Collector) (h : Heap)
    (hall : allManaged h.index) :
    ∃ fuel, (enter_mark_phase fuel c h).isSome = true :=
  markLoop_term_aux (whites c.black h + 1) (badCount h.index c.worklist + 1)
    (c.worklist.length + 1) { c with state := CollectorState.Marking } h hall
    (Nat.lt_succ_self _) (Nat.lt_succ_self _) (Nat.lt_succ_self _)

/-- C3 amended witness: a managed self-referential block (the analogue
of the diverging counterexample, but with `gc = true`) is marked once
and the loop finishes. -/
theorem C3_mark_loop_terminates_witness :
    allManaged selfRefGcHeap.index ∧
    ∃ fuel, (enter_mark_phase fuel cSelfGc selfRefGcHeap).isSome = true :=
  ⟨by decide, C3_mark_loop_terminates cSelfGc selfRefGcHeap (by decide)⟩

/-- Destroying blocks never touches mark bits. -/
theorem foldDestroy_marks :
    ∀ (M : List PtrInfo) (hh : Heap), (M.foldl destroyObj hh).marks = hh.marks := by
  intro M
  induction M with
  | nil => intro hh; rfl
  | cons r M ih => intro hh; rw [List.foldl_cons, ih]; rfl

/-- The sweep loop of `enter_sweep_phase`, whose colour test reads mark
bits that destruction never changes, destroys exactly the records that
were White when the sweep began. -/
theorem sweepFold_eq (c1 : Collector) :
    ∀ (M : List PtrInfo) (hh base : Heap), hh.marks = base.marks →
      M.foldl (fun hh r => if c1.colour hh r.ptr = Colour.White then destroyObj hh r else hh)
          hh =
        (M.filter fun r => !(base.marks r.ptr == c1.black)).foldl destroyObj hh := by
  intro M
  induction M with
  | nil => intro hh base _; rfl
  | cons r M ih =>
    intro hh base hm
    rw [List.foldl_cons, List.filter_cons]
    by_cases hw : base.marks r.ptr = c1.black
    · have hc : c1.colour hh r.ptr = Colour.Black := by
        simp [Collector.colour, hm, hw]
      rw [if_neg (by simp [hc]), if_neg (by simp [hw])]
      exact ih hh base hm
    · have hc : c1.colour hh r.ptr = Colour.White := by
        simp [Collector.colour, hm, hw]
      rw [if_pos hc, if_pos (by simp [hw]), List.foldl_cons]
      exact ih (destroyObj hh r) base hm

/-- Destroying a list of blocks with pairwise distinct payload addresses
and clear dropped flags invokes each destructor once, in order, against
the payload address. -/
theorem foldDestroy_drops :
    ∀ (M : List PtrInfo) (hh : Heap), (∀ q ∈ M, hh.dropped q.ptr = false) →
      (M.map PtrInfo.ptr).Nodup →
      (M.foldl destroyObj hh).drops = hh.drops ++ M.map PtrInfo.ptr := by
  intro M
  induction M with
  | nil => intro hh _ _; simp
  | cons r M ih =>
    intro hh hdp hnd
    have hdf : hh.dropped r.ptr = false := hdp r (List.mem_cons_self r M)
    have hstep : (destroyObj hh r).drops = hh.drops ++ [r.ptr] := by
      simp [destroyObj, hdf]
    rw [List.map_cons, List.nodup_cons] at hnd
    obtain ⟨hnotin, hnd'⟩ := hnd
    have hdp' : ∀ q ∈ M, (destroyObj hh r).dropped q.ptr = false := by
      intro q hq
      have hne : q.ptr ≠ r.ptr := by
        intro he
        exact hnotin (he ▸ List.mem_map_of_mem PtrInfo.ptr hq)
      simp [destroyObj, hne, hdp q (List.mem_cons_of_mem r hq)]
    rw [List.foldl_cons, ih (destroyObj hh r) hdp' hnd', hstep, List.map_cons,
      List.append_assoc, List.singleton_append]

/-- Destroying a list of blocks returns each block's header-base pointer
with its original layout to the system allocator, in order. -/
theorem foldDestroy_frees :
    ∀ (M : List PtrInfo) (hh : Heap),
      (M.foldl destroyObj hh).frees =
        hh.frees ++ M.map (fun q => (q.ptr - hh.baseOff q.ptr, hh.layoutOf q.ptr)) := by
  intro M
  induction M with
  | nil => intro hh; simp
  | cons r M ih =>
    intro hh
    rw [List.foldl_cons, ih (destroyObj hh r), List.map_cons]
    show (hh.frees ++ [(r.ptr - hh.baseOff r.ptr, hh.layoutOf r.ptr)]) ++ _ = _
    rw [List.append_assoc, List.singleton_append]
    rfl

/-- Destroying a list of blocks removes exactly the records whose
payload address is one of the destroyed addresses. -/
theorem foldDestroy_index :
    ∀ (M : List PtrInfo) (hh : Heap),
      (M.foldl destroyObj hh).index =
        hh.index.filter fun q => decide (q.ptr ∉ M.map PtrInfo.ptr) := by
  intro M
  induction M with
  | nil =>
    intro hh
    simp
  | cons r M ih =>
    intro hh
    rw [List.foldl_cons, ih (destroyObj hh r)]
    show (hh.index.filter fun q => decide (q.ptr ≠ r.ptr)).filter _ = _
    rw [List.filter_filter]
    apply List.filter_congr
    intro x _
    by_cases he : x.ptr = r.ptr <;>
      by_cases hm : x.ptr ∈ List.map PtrInfo.ptr M <;>
        simp [List.mem_cons, he, hm]

/-- The final heap of the sweep phase is the fold of `destroyObj` over
the White managed records. -/
theorem enter_sweep_phase_snd (c : Collector) (h : Heap) :
    (enter_sweep_phase c h).2 = (sweepVictims c h).foldl destroyObj h := by
  unfold enter_sweep_phase sweepVictims
  exact sweepFold_eq { c with state := CollectorState.Sweeping }
    (h.index.filter fun r => r.gc) h h rfl

/-- C1: for every managed (`gc = true`) record of the Metadata Index
whose colour is White when the sweep runs (given the index's disjoint
ranges — pairwise distinct payload addresses — clear dropped flags, and
a fresh destructor log), the sweep destroys it: its destructor is
invoked exactly once against the payload address, the record is removed
from the index, and the block at the header-base pointer is returned to
the system allocator under the original allocation layout; a managed
record whose colour is Black stays in the index, has no destructor run,
and no mark bit anywhere is changed by the sweep. -/
theorem C1_sweep_destroys_white (c : Collector) (h : Heap)
    (hnd : (h.index.map PtrInfo.ptr).Nodup)
    (hdp : ∀ q ∈ h.index, h.dropped q.ptr = false)
    (hdr : h.drops = [])
    (r : PtrInfo) (hr : r ∈ h.index) (hg : r.gc = true) :
    (c.colour h r.ptr = Colour.White →
      (enter_sweep_phase c h).2.drops.count r.ptr = 1 ∧
      r ∉ (enter_sweep_phase c h).2.index ∧
      (r.ptr - h.baseOff r.ptr, h.layoutOf r.ptr) ∈ (enter_sweep_phase c h).2.frees) ∧
    (c.colour h r.ptr = Colour.Black →
      r ∈ (enter_sweep_phase c h).2.index ∧
      r.ptr ∉ (enter_sweep_phase c h).2.drops) ∧
    (enter_sweep_phase c h).2.marks = h.marks := by
  have hVsub : ∀ q ∈ sweepVictims c h, q ∈ h.index := by
    intro q hq
    unfold sweepVictims at hq
    exact (List.mem_filter.mp (List.mem_filter.mp hq).1).1
  have hVnd : ((sweepVictims c h).map PtrInfo.ptr).Nodup := by
    have hsub : List.Sublist (sweepVictims c h) h.index :=
      (List.filter_sublist _).trans (List.filter_sublist _)
    exact List.Nodup.sublist (hsub.map PtrInfo.ptr) hnd
  have hdrops : (enter_sweep_phase c h).2.drops = (sweepVictims c h).map PtrInfo.ptr := by
    rw [enter_sweep_phase_snd,
      foldDestroy_drops _ h (fun q hq => hdp q (hVsub q hq)) hVnd, hdr, List.nil_append]
  have hindex : (enter_sweep_phase c h).2.index =
      h.index.filter fun q => decide (q.ptr ∉ (sweepVictims c h).map PtrInfo.ptr) := by
    rw [enter_sweep_phase_snd, foldDestroy_index]
  have hfrees : (enter_sweep_phase c h).2.frees =
      h.frees ++ (sweepVictims c h).map
        (fun q => (q.ptr - h.baseOff q.ptr, h.layoutOf q.ptr)) := by
    rw [enter_sweep_phase_snd, foldDestroy_frees]
  have hmarks : (enter_sweep_phase c h).2.marks = h.marks := by
    rw [enter_sweep_phase_snd, foldDestroy_marks]
  refine ⟨?_, ?_, hmarks⟩
  · intro hwcol
    have hwm : h.marks r.ptr ≠ c.black := by
      intro he
      simp [Collector.colour, he] at hwcol
    have hrV : r ∈ sweepVictims c h := by
      unfold sweepVictims
      exact List.mem_filter.mpr ⟨List.mem_filter.mpr ⟨hr, hg⟩, by simp [hwm]⟩
    refine ⟨?_, ?_, ?_⟩
    · rw [hdrops]
      exact List.count_eq_one_of_mem hVnd (List.mem_map_of_mem PtrInfo.ptr hrV)
    · rw [hindex]
      intro hmem
      have hpred := (List.mem_filter.mp hmem).2
      rw [decide_eq_true_iff] at hpred
      exact hpred (List.mem_map_of_mem PtrInfo.ptr hrV)
    · rw [hfrees]
      exact List.mem_append_right _ (List.mem_map_of_mem _ hrV)
  · intro hbcol
    have hbm : h.marks r.ptr = c.black := by
      by_contra he
      simp [Collector.colour, he] at hbcol
    have hnotin : r.ptr ∉ (sweepVictims c h).map PtrInfo.ptr := by
      intro hin
      obtain ⟨q, hqV, hq⟩ := List.mem_map.mp hin
      have hq_idx : q ∈ h.index := hVsub q hqV
      have hqr : q = r := List.inj_on_of_nodup_map hnd hq_idx hr hq
      rw [hqr] at hqV
      have hpred := (List.mem_filter.mp hqV).2
      simp [hbm] at hpred
    constructor
    · rw [hindex]
      exact List.mem_filter.mpr ⟨hr, by simpa using hnotin⟩
    · rw [hdrops]
      exact hnotin

/-- C1 witness: in `sweepHeap` the managed record at 100 is White and
the sweep destroys it — one destructor invocation at 100, record gone,
block `(92, ⟨16, 8⟩)` returned. -/
theorem C1_sweep_destroys_white_witness :
    (sweepHeap.index.map PtrInfo.ptr).Nodup ∧
    (⟨100, 8, true⟩ : PtrInfo) ∈ sweepHeap.index ∧
    exCollector.colour sweepHeap 100 = Colour.White ∧
    ((enter_sweep_phase exCollector sweepHeap).2.drops.count 100 = 1 ∧
      (⟨100, 8, true⟩ : PtrInfo) ∉ (enter_sweep_phase exCollector sweepHeap).2.index ∧
      (100 - sweepHeap.baseOff 100, sweepHeap.layoutOf 100) ∈
        (enter_sweep_phase exCollector sweepHeap).2.frees) :=
  ⟨by decide, by decide, by decide,
    (C1_sweep_destroys_white exCollector sweepHeap (by decide) (by decide) rfl
      ⟨100, 8, true⟩ (by decide) rfl).1 (by decide)⟩

end Gcmalloc
